import Mathlib

/-!
Verification of the context-capture scanning engine of
`src/android/android_crash_analyzer.py` (class `AndroidCrashAnalyzer`).

The embedding mirrors the Python source:
* lines are `String`s exactly as returned by `readlines()` (trailing
  terminator included);
* the direct (manual) strategy is `manual_search_blocks` / `manual_search`,
  from `_manual_search`;
* the grouping of accelerated-search output on the separator token `"--"`
  is `group_blocks`, from the loop in `_find_crashes_in_file`;
* the external search helper `ripgrep_search` lives in `app/utils/ripgrep.py`,
  which is not part of this snapshot, and is therefore modelled from the spec;
* the orchestrating loop of `analyze` is `analyze_loop` / `analyze`, with the
  per-file locator outcome supplied explicitly.

Whitespace and case handling are modelled for ASCII text, matching the
behaviour of Python's `str.rstrip` and `re.IGNORECASE` on the ASCII range.
-/

namespace LensInsights

/-- ASCII whitespace, the characters stripped by Python's `str.rstrip()` and
matched by the regex class `\s` on ASCII input: space, tab, newline, carriage
return, vertical tab, form feed. -/
def isPySpace (c : Char) : Bool :=
  c = ' ' || c = '\t' || c = '\n' || c = '\r' || c = '\x0b' || c = '\x0c'

/-- Case-insensitive character equality, as `re.IGNORECASE` gives on ASCII. -/
def ciEq (a b : Char) : Bool := a.toLower = b.toLower

/-- `startsCi w s` holds when `s` begins with the word `w`, compared
case-insensitively character by character. -/
def startsCi : List Char → List Char → Bool
  | [], _ => true
  | _ :: _, [] => false
  | w :: ws, c :: cs => ciEq w c && startsCi ws cs

/-- The letters of the literal `EXCEPTION` in the pattern. -/
def excList : List Char := [ 'e', 'x', 'c', 'e', 'p', 't', 'i', 'o', 'n' ]

/-- The letters of the literal `FATAL` in the pattern. -/
def fatalList : List Char := [ 'f', 'a', 't', 'a', 'l' ]

/-- `\s*EXCEPTION` evaluated at the head of the string: either `EXCEPTION`
starts here, or the head is whitespace and the rest matches again. -/
def excAfterSpaces : List Char → Bool
  | [] => false
  | c :: cs => startsCi excList (c :: cs) || (isPySpace c && excAfterSpaces cs)

/-- `\s+EXCEPTION` evaluated at the head of the string: at least one
whitespace character, then `EXCEPTION` after any further whitespace. -/
def spacesThenExc : List Char → Bool
  | [] => false
  | c :: cs => isPySpace c && excAfterSpaces cs

/-- A match of `FATAL\s+EXCEPTION` anchored at the head of `s`. -/
def matchHere (s : List Char) : Bool :=
  startsCi fatalList s && spacesThenExc (s.drop 5)

/-- `re.search` of the compiled pattern `FATAL\s+EXCEPTION` with
`re.IGNORECASE`: a match starting at some position of the string.  Embeds
`pattern.search(line)` from `_manual_search` (line 252 of the source). -/
def reSearch : List Char → Bool
  | [] => false
  | c :: cs => matchHere (c :: cs) || reSearch cs

/-- Boolean result of `pattern.search(line)` for a whole line. -/
def fatal_pattern_search (line : String) : Bool := reSearch line.toList

/-- Drop trailing characters satisfying `p` from a character list. -/
def rdropL (p : Char → Bool) (l : List Char) : List Char :=
  (l.reverse.dropWhile p).reverse

/-- Python's `str.rstrip()` (no argument): remove all trailing whitespace. -/
def py_rstrip (s : String) : String := String.mk (rdropL isPySpace s.toList)

/-- A line-terminator character (`\n` or `\r`). -/
def isTermChar (c : Char) : Bool := c = '\n' || c = '\r'

/-- Remove only the trailing line-terminator characters of a line. -/
def strip_term (s : String) : String := String.mk (rdropL isTermChar s.toList)

/-- Direct (manual) strategy, the loop of `_manual_search` (source lines
246-257): for each line that matches the pattern, capture that line together
with the following 10 lines (`range(i, min(i + 11, len(lines)))`), apply
`rstrip` to every captured line, and join the captured lines with `"\n"` into
one crash block.  Matches are handled independently, so windows may overlap. -/
def manual_search_blocks : List String → List String
  | [] => []
  | l :: rest =>
    if fatal_pattern_search l then
      String.intercalate ("\n") (((l :: rest).take 11).map py_rstrip) ::
        manual_search_blocks rest
    else
      manual_search_blocks rest

/-- Indices of the lines on which `pattern.search` fires. -/
def match_indices (lines : List String) : List Nat :=
  (List.range lines.length).filter (fun i => fatal_pattern_search (lines.getD i ("")))

/-- The captured window for a match at index `i`: lines `i` through
`min (i + 10) (lines.length - 1)`, each passed through `rstrip`. -/
def crash_window (lines : List String) (i : Nat) : List String :=
  ((lines.drop i).take 11).map py_rstrip

/-- The crash block for a match at index `i`: the window joined with `"\n"`. -/
def crash_block (lines : List String) (i : Nat) : String :=
  String.intercalate ("\n") (crash_window lines i)

/-- Block grouper, the loop at source lines 200-212 of
`_find_crashes_in_file`: walk the flat line stream produced by the
accelerated search, accumulating lines; on the separator token `"--"` flush
the accumulator (if nonempty) as one block joined with `"\n"`; at end of
stream flush any trailing accumulated lines as a final block. -/
def group_blocks : List String → List String → List String
  | acc, [] => if acc.isEmpty then [] else [String.intercalate ("\n") acc]
  | acc, l :: rest =>
    if l = "--" then
      if acc.isEmpty then group_blocks [] rest
      else String.intercalate ("\n") acc :: group_blocks [] rest
    else group_blocks (acc ++ [l]) rest

/-- Segments of a line stream delimited by occurrences of the separator
`"--"`, empty segments included; the maximal runs of non-separator lines are
exactly the nonempty segments.  Used to state what the grouper computes. -/
def sep_segments : List String → List (List String)
  | [] => [[]]
  | l :: rest =>
    if l = "--" then [] :: sep_segments rest
    else
      match sep_segments rest with
      | [] => [[l]]
      | r :: rs => (l :: r) :: rs

/-- Concatenate groups of lines with the separator `"--"` between
consecutive groups (and no separator after the last group). -/
def sep_concat : List (List String) → List String
  | [] => []
  | g :: gs => g ++ (if gs.isEmpty then [] else "--" :: sep_concat gs)

/-- Modelled from the spec: the helper `ripgrep_search` (from
`app/utils/ripgrep.py`, which is not part of this snapshot) as invoked by
`run_ripgrep` at source lines 186-190 with pattern `FATAL\s+EXCEPTION` and
`context_after=10`.  Per spec section 4.1 the external tool emits, for each
match, the matching line plus the next 10 lines of the file (line-oriented,
so without their terminators), with an explicit `"--"` separator between
distinct matches' context groups. -/
def ripgrep_search (lines : List String) : List String :=
  sep_concat ((match_indices lines).map (fun i => ((lines.drop i).take 11).map strip_term))

/-- The accelerated strategy end to end: ripgrep output grouped into blocks
by `group_blocks`, as in the try-branch of `_find_crashes_in_file`. -/
def accelerated_blocks (lines : List String) : List String :=
  group_blocks [] (ripgrep_search lines)

/-- Per-file failure outcomes of the scan.  `cancelled` embeds the
`CancelledError` raised at source lines 102 and 250; `readError` embeds the
exception re-raised at source line 261 when the file cannot be opened or
read.  Modelled from the spec for the missing `app/services/file_handler`
module: per spec section 7 the cancellation outcome is distinguishable from
all other errors. -/
inductive ScanErr where
  | cancelled
  | readError
deriving DecidableEq

/-- The state of one input file as seen by `open`: either its decoded lines
(decoding with `errors='replace'` never fails) or an unreadable path. -/
inductive FileInput where
  | content (lines : List String)
  | unreadable

/-- `_manual_search` (source lines 223-263): opening an unreadable file
raises a read error; otherwise the per-line loop first checks the
cancellation event (modelled as a flag that is set for the whole call, as for
an `asyncio.Event` that is set and never cleared) and raises `cancelled`
before examining any line, so a nonempty file under cancellation raises while
an empty file returns no blocks; without cancellation it returns the blocks
of `manual_search_blocks`. -/
def manual_search (cancelled : Bool) (input : FileInput) : Except ScanErr (List String) :=
  match input with
  | FileInput.unreadable => Except.error ScanErr.readError
  | FileInput.content lines =>
    if cancelled && !lines.isEmpty then Except.error ScanErr.cancelled
    else Except.ok (manual_search_blocks lines)

/-- `_find_crashes_in_file` (source lines 157-221).  `rgAvailable` is the
cached `is_ripgrep_available()` probe; `rgOut` is the outcome of the
offloaded `run_ripgrep` call (`Except.error ()` models any exception raised
by the ripgrep invocation).  On a ripgrep failure the except-branch at lines
214-216 falls back to `_manual_search`; when ripgrep is unavailable the
else-branch at lines 217-219 uses `_manual_search` directly. -/
def find_crashes_in_file (rgAvailable : Bool) (rgOut : Except Unit (List String))
    (cancelled : Bool) (input : FileInput) : Except ScanErr (List String) :=
  if rgAvailable then
    match rgOut with
    | Except.ok all_lines => Except.ok (group_blocks [] all_lines)
    | Except.error _ => manual_search cancelled input
  else manual_search cancelled input

/-- One iteration's inputs in the `analyze` loop: the file path, whether the
cancellation event is observed as set by the check at source line 99 before
the file is processed, and the outcome of `_find_crashes_in_file` for the
file.  Progress emission (lines 105-119) is swallowed on failure and affects
no result, so it is omitted. -/
structure FileStep where
  path : String
  preCancelled : Bool
  locate : Except ScanErr (List String)

/-- The data of the returned `InsightResult` (source lines 147-155): the
per-file crash entries accumulated at lines 126-129 (only files with at
least one crash are appended) and the metadata counters. -/
structure Report where
  allCrashes : List (String × List String)
  totalCrashes : Nat
  filesWithCrashes : Nat
  totalFiles : Nat
deriving DecidableEq

/-- The per-file loop of `analyze` (source lines 97-139): abort with
`cancelled` when the pre-file check fires; on a successful locate append the
entry and bump the counters only when the block list is nonempty
(`if file_crashes:` at line 125); a `cancelled` error from the locator
propagates (modelled from the spec: `CancelledError` is distinguishable from
the exceptions caught by the per-file handler at lines 137-139); any other
locator error is logged and skipped by that handler (`continue`). -/
def analyze_loop :
    List FileStep → List (String × List String) → Nat → Nat →
      Except ScanErr (List (String × List String) × Nat × Nat)
  | [], acc, tc, fwc => Except.ok (acc, tc, fwc)
  | s :: rest, acc, tc, fwc =>
    if s.preCancelled then Except.error ScanErr.cancelled
    else
      match s.locate with
      | Except.ok blocks =>
        if blocks.isEmpty then analyze_loop rest acc tc fwc
        else analyze_loop rest (acc ++ [(s.path, blocks)]) (tc + blocks.length) (fwc + 1)
      | Except.error ScanErr.cancelled => Except.error ScanErr.cancelled
      | Except.error ScanErr.readError => analyze_loop rest acc tc fwc

/-- `analyze` (source lines 71-155): run the per-file loop from empty
accumulators and package the result, with `total_files = len(file_paths)`. -/
def analyze (steps : List FileStep) : Except ScanErr Report :=
  (analyze_loop steps [] 0 0).map
    (fun r => Report.mk r.1 r.2.1 r.2.2 steps.length)

/-- The per-file entries a completed scan accumulates: one entry per file
whose locate succeeded with a nonempty block list, in input order. -/
def ok_entries : List FileStep → List (String × List String)
  | [] => []
  | s :: rest =>
    match s.locate with
    | Except.ok blocks =>
      if blocks.isEmpty then ok_entries rest else (s.path, blocks) :: ok_entries rest
    | Except.error _ => ok_entries rest

/-! ### Concrete inputs used by witnesses and counterexamples -/

/-- A file with a single match at index 0 followed by ten context lines,
where the matching line carries a trailing space before its newline and one
context line is literally the separator token. -/
def c1_file : List String :=
  [ "FATAL EXCEPTION: main \n", "--\n", "l2\n", "l3\n", "l4\n", "l5\n",
    "l6\n", "l7\n", "l8\n", "l9\n", "l10\n" ]

/-- A clean crash log: no trailing whitespace beyond terminators and no line
equal to the separator token. -/
def c1_clean_file : List String :=
  [ "FATAL EXCEPTION: main\n", "at com.example.f\n", "at com.example.g\n" ]

/-- A file with exactly two matching lines, two lines apart (indices 0
and 2). -/
def c2_file : List String :=
  [ "FATAL EXCEPTION: main\n", "at com.example.f\n",
    "fatal  exception: worker\n", "at com.example.g\n" ]

/-- A matching line with a trailing space before its newline. -/
def c5_line : String := "FATAL EXCEPTION: main \n"

/-- A file whose scan succeeds with one crash block. -/
def ok_step : FileStep :=
  FileStep.mk ("app.log") false (Except.ok [("FATAL EXCEPTION: main\nat f")])

/-- A file whose scan succeeds with zero crash blocks. -/
def empty_step : FileStep :=
  FileStep.mk ("quiet.log") false (Except.ok [])

/-- A file whose scan fails with a read error (e.g. a missing path). -/
def bad_step : FileStep :=
  FileStep.mk ("missing.log") false (Except.error ScanErr.readError)

/-- A file reached after the cancellation event has been set: the pre-file
check observes cancellation. -/
def cancel_step : FileStep :=
  FileStep.mk ("late.log") true (Except.ok [])

/-- A file during whose search the cancellation error is raised. -/
def locator_cancel_step : FileStep :=
  FileStep.mk ("mid.log") false (Except.error ScanErr.cancelled)

/-- A two-file scan request: a zero-match file followed by a one-crash file. -/
def c3_steps : List FileStep := [empty_step, ok_step]

/-- The report the scan of `c3_steps` produces. -/
def c3_report : Report :=
  Report.mk [(("app.log"), [("FATAL EXCEPTION: main\nat f")])] 1 1 2

/-! ### Characterization of the direct strategy -/

theorem crash_block_cons_succ (l : String) (rest : List String) (i : Nat) :
    crash_block (l :: rest) (i + 1) = crash_block rest i := by
  simp [crash_block, crash_window]

theorem match_indices_cons (l : String) (rest : List String) :
    match_indices (l :: rest) =
      (if fatal_pattern_search l then [0] else []) ++ (match_indices rest).map Nat.succ := by
  unfold match_indices
  rw [List.length_cons, List.range_succ_eq_map, List.filter_cons, List.filter_map]
  have hcomp : ((fun i => fatal_pattern_search ((l :: rest).getD i (""))) ∘ Nat.succ) =
      (fun i => fatal_pattern_search (rest.getD i (""))) := by
    funext i
    simp [Function.comp]
  rw [hcomp]
  by_cases h : fatal_pattern_search l
  · simp [h]
  · simp [h]

/-- The direct strategy produces exactly one block per matching line index,
in file order: the block of the window starting at that index. -/
theorem manual_search_blocks_eq (lines : List String) :
    manual_search_blocks lines = (match_indices lines).map (crash_block lines) := by
  induction lines with
  | nil => rfl
  | cons l rest ih =>
    rw [match_indices_cons]
    have hmap : ((match_indices rest).map Nat.succ).map (crash_block (l :: rest)) =
        (match_indices rest).map (crash_block rest) := by
      rw [List.map_map]
      apply List.map_congr_left
      intro i _
      simp [Function.comp, Nat.succ_eq_add_one, crash_block_cons_succ]
    by_cases h : fatal_pattern_search l
    · rw [manual_search_blocks, if_pos h, ih]
      rw [List.map_append, hmap]
      simp only [h, if_true, List.map_cons, List.map_nil, List.singleton_append]
      congr 1
    · rw [manual_search_blocks, if_neg h, ih]
      rw [List.map_append, hmap]
      simp [h]

/-! ### Characterization of the block grouper -/

/-- Prepend pending accumulated lines onto the first segment. -/
def cons_into (acc : List String) : List (List String) → List (List String)
  | [] => [acc]
  | r :: rs => (acc ++ r) :: rs

theorem sep_segments_ne_nil (ls : List String) : sep_segments ls ≠ [] := by
  cases ls with
  | nil => simp [sep_segments]
  | cons l rest =>
    unfold sep_segments
    by_cases h : l = "--"
    · simp [h]
    · simp only [h, if_false]
      cases sep_segments rest <;> simp

/-- What the grouper computes for an arbitrary accumulator: the pending lines
are prepended to the first separator-delimited segment, the empty segments are
dropped, and each remaining segment is joined into one block. -/
theorem group_blocks_eq_segments (ls : List String) : ∀ acc : List String,
    group_blocks acc ls =
      ((cons_into acc (sep_segments ls)).filter (fun r => !r.isEmpty)).map
        (fun r => String.intercalate ("\n") r) := by
  induction ls with
  | nil =>
    intro acc
    by_cases h : acc.isEmpty
    · simp [group_blocks, sep_segments, cons_into, h]
    · simp [group_blocks, sep_segments, cons_into, h]
  | cons l rest ih =>
    intro acc
    cases hseg : sep_segments rest with
    | nil => exact absurd hseg (sep_segments_ne_nil rest)
    | cons r rs =>
      by_cases h : l = "--"
      · have hcons : sep_segments (l :: rest) = [] :: r :: rs := by
          unfold sep_segments
          simp [h, hseg]
        by_cases ha : acc.isEmpty
        · have ha' : acc = [] := List.isEmpty_iff.mp ha
          subst ha'
          rw [hcons]
          simp only [group_blocks, h, if_true, List.isEmpty_nil]
          rw [ih []]
          simp [cons_into, hseg]
        · have ha' : ¬ acc = [] := by
            intro hcontra
            rw [hcontra] at ha
            exact ha List.isEmpty_nil
          rw [hcons]
          simp only [group_blocks, h, if_true]
          rw [if_neg (by simpa [List.isEmpty_iff] using ha'), ih []]
          simp [cons_into, hseg, ha']
      · have hcons : sep_segments (l :: rest) = (l :: r) :: rs := by
          unfold sep_segments
          simp [h, hseg]
        rw [hcons]
        have hstep : group_blocks acc (l :: rest) = group_blocks (acc ++ [l]) rest := by
          simp [group_blocks, h]
        rw [hstep, ih (acc ++ [l])]
        simp [cons_into, hseg, List.append_assoc]

/-- Feeding separator-free lines into the grouper only extends the pending
accumulator. -/
theorem group_blocks_append (g : List String) (hg : ∀ x ∈ g, ¬ x = "--") :
    ∀ acc s, group_blocks acc (g ++ s) = group_blocks (acc ++ g) s := by
  induction g with
  | nil => intro acc s; simp
  | cons x g ih =>
    intro acc s
    have hx : ¬ x = "--" := hg x (List.mem_cons_self x g)
    have hg2 : ∀ y ∈ g, ¬ y = "--" := fun y hy => hg y (List.mem_cons_of_mem x hy)
    rw [List.cons_append]
    have hstep : group_blocks acc (x :: (g ++ s)) = group_blocks (acc ++ [x]) (g ++ s) := by
      simp [group_blocks, hx]
    rw [hstep, ih hg2 (acc ++ [x]) s]
    simp [List.append_assoc]

/-- On a stream of nonempty separator-free groups joined by the separator
token, the grouper recovers exactly the groups, each joined into a block. -/
theorem group_blocks_sep_concat : ∀ gs : List (List String),
    (∀ g ∈ gs, g ≠ [] ∧ ∀ x ∈ g, ¬ x = "--") →
    group_blocks [] (sep_concat gs) =
      gs.map (fun g => String.intercalate ("\n") g) := by
  intro gs
  induction gs with
  | nil => intro _; rfl
  | cons g gs ih =>
    intro h
    obtain ⟨hg_ne, hg_sep⟩ := h g (List.mem_cons_self g gs)
    have hrest : ∀ g2 ∈ gs, g2 ≠ [] ∧ ∀ x ∈ g2, ¬ x = "--" :=
      fun g2 hg2 => h g2 (List.mem_cons_of_mem _ hg2)
    have hg_empty : g.isEmpty = false := by
      cases g with
      | nil => exact absurd rfl hg_ne
      | cons a as => rfl
    cases gs with
    | nil =>
      simp only [sep_concat, List.isEmpty_nil, if_true, List.append_nil]
      rw [show (g : List String) = g ++ [] from (List.append_nil g).symm,
        group_blocks_append g hg_sep [] []]
      simp [group_blocks, hg_empty]
    | cons g2 gs2 =>
      have hsc : sep_concat (g :: g2 :: gs2) = g ++ ("--" :: sep_concat (g2 :: gs2)) := by
        simp [sep_concat]
      rw [hsc, group_blocks_append g hg_sep [] _]
      simp only [List.nil_append]
      have hstep : group_blocks g ("--" :: sep_concat (g2 :: gs2)) =
          String.intercalate ("\n") g :: group_blocks [] (sep_concat (g2 :: gs2)) := by
        simp [group_blocks, hg_empty]
      rw [hstep, ih hrest]
      rfl

/-! ### A pattern match survives rstrip

The pattern `FATAL\s+EXCEPTION` ends in a letter, so stripping trailing
whitespace from a line cannot destroy a match.  These lemmas make that
precise for the embedded search. -/

/-- Every character of `w` lowercases to a non-whitespace character. -/
def lowerNotSpace (w : List Char) : Bool := w.all (fun c => !isPySpace c.toLower)

theorem exc_lowerNotSpace : lowerNotSpace excList = true := by decide

theorem fatal_lowerNotSpace : lowerNotSpace fatalList = true := by decide

theorem toLower_of_space {d : Char} (hd : isPySpace d = true) : d.toLower = d := by
  simp only [isPySpace, Bool.or_eq_true, decide_eq_true_eq] at hd
  rcases hd with ((((h | h) | h) | h) | h) | h <;> subst h <;> decide

theorem startsCi_length {w s : List Char} (h : startsCi w s = true) :
    w.length ≤ s.length := by
  induction w generalizing s with
  | nil => simp
  | cons a as ih =>
    cases s with
    | nil => exact absurd h (by simp [startsCi])
    | cons b bs =>
      simp only [startsCi, Bool.and_eq_true] at h
      simp only [List.length_cons]
      exact Nat.add_le_add_right (ih h.2) 1

theorem startsCi_strip {t : List Char} (ht : ∀ c ∈ t, isPySpace c = true) :
    ∀ w, lowerNotSpace w = true →
      ∀ s, startsCi w (s ++ t) = true → startsCi w s = true := by
  intro w
  induction w with
  | nil => intro _ s _; rfl
  | cons a as ih =>
    intro hw s h
    simp only [lowerNotSpace, List.all_cons, Bool.and_eq_true] at hw
    cases s with
    | nil =>
      exfalso
      rw [List.nil_append] at h
      cases t with
      | nil => simp [startsCi] at h
      | cons d ds =>
        have hd : isPySpace d = true := ht d (List.mem_cons_self d ds)
        simp only [startsCi, Bool.and_eq_true, ciEq, decide_eq_true_eq] at h
        have ha := hw.1
        rw [h.1, toLower_of_space hd] at ha
        rw [hd] at ha
        exact absurd ha (by decide)
    | cons b bs =>
      simp only [List.cons_append, startsCi, Bool.and_eq_true] at h ⊢
      exact ⟨h.1, ih hw.2 bs h.2⟩

theorem startsCi_allspace {w t : List Char} (hw : lowerNotSpace w = true) (hne : w ≠ [])
    (ht : ∀ c ∈ t, isPySpace c = true) : startsCi w t = false := by
  cases w with
  | nil => exact absurd rfl hne
  | cons a as =>
    cases t with
    | nil => rfl
    | cons d ds =>
      have hd : isPySpace d = true := ht d (List.mem_cons_self d ds)
      simp only [lowerNotSpace, List.all_cons, Bool.and_eq_true] at hw
      have ha := hw.1
      cases hcd : ciEq a d with
      | false => simp [startsCi, hcd]
      | true =>
        exfalso
        simp only [ciEq, decide_eq_true_eq] at hcd
        rw [hcd, toLower_of_space hd, hd] at ha
        exact absurd ha (by decide)

theorem excAfterSpaces_allspace {t : List Char} (ht : ∀ c ∈ t, isPySpace c = true) :
    excAfterSpaces t = false := by
  induction t with
  | nil => rfl
  | cons d ds ih =>
    have hds : ∀ c ∈ ds, isPySpace c = true := fun c hc => ht c (List.mem_cons_of_mem d hc)
    have hstart : startsCi excList (d :: ds) = false :=
      startsCi_allspace exc_lowerNotSpace (by simp [excList]) ht
    simp [excAfterSpaces, hstart, ih hds]

theorem excAfterSpaces_strip {s t : List Char} (ht : ∀ c ∈ t, isPySpace c = true)
    (h : excAfterSpaces (s ++ t) = true) : excAfterSpaces s = true := by
  induction s with
  | nil =>
    rw [List.nil_append] at h
    rw [excAfterSpaces_allspace ht] at h
    exact absurd h (by simp)
  | cons c cs ih =>
    rw [List.cons_append] at h
    simp only [excAfterSpaces, Bool.or_eq_true, Bool.and_eq_true] at h ⊢
    rcases h with h | ⟨hsp, hrec⟩
    · exact Or.inl (startsCi_strip ht excList exc_lowerNotSpace (c :: cs) (by rwa [List.cons_append]))
    · exact Or.inr ⟨hsp, ih hrec⟩

theorem spacesThenExc_strip {s t : List Char} (ht : ∀ c ∈ t, isPySpace c = true)
    (h : spacesThenExc (s ++ t) = true) : spacesThenExc s = true := by
  cases s with
  | nil =>
    exfalso
    rw [List.nil_append] at h
    cases t with
    | nil => simp [spacesThenExc] at h
    | cons d ds =>
      simp only [spacesThenExc, Bool.and_eq_true] at h
      have hds : ∀ c ∈ ds, isPySpace c = true := fun c hc => ht c (List.mem_cons_of_mem d hc)
      rw [excAfterSpaces_allspace hds] at h
      exact absurd h.2 (by simp)
  | cons c cs =>
    simp only [List.cons_append, spacesThenExc, Bool.and_eq_true] at h ⊢
    exact ⟨h.1, excAfterSpaces_strip ht h.2⟩

theorem matchHere_strip {s t : List Char} (ht : ∀ c ∈ t, isPySpace c = true)
    (h : matchHere (s ++ t) = true) : matchHere s = true := by
  simp only [matchHere, Bool.and_eq_true] at h ⊢
  have h1s : startsCi fatalList s = true := startsCi_strip ht fatalList fatal_lowerNotSpace s h.1
  have hlen : 5 ≤ s.length := startsCi_length h1s
  have hdrop : (s ++ t).drop 5 = s.drop 5 ++ t := List.drop_append_of_le_length hlen
  refine ⟨h1s, spacesThenExc_strip ht ?_⟩
  rw [← hdrop]
  exact h.2

theorem reSearch_allspace {t : List Char} (ht : ∀ c ∈ t, isPySpace c = true) :
    reSearch t = false := by
  induction t with
  | nil => rfl
  | cons d ds ih =>
    have hds : ∀ c ∈ ds, isPySpace c = true := fun c hc => ht c (List.mem_cons_of_mem d hc)
    have hm : matchHere (d :: ds) = false := by
      simp only [matchHere]
      rw [startsCi_allspace fatal_lowerNotSpace (by simp [fatalList]) ht]
      rfl
    simp [reSearch, hm, ih hds]

theorem reSearch_strip {s t : List Char} (ht : ∀ c ∈ t, isPySpace c = true)
    (h : reSearch (s ++ t) = true) : reSearch s = true := by
  induction s with
  | nil =>
    rw [List.nil_append] at h
    rw [reSearch_allspace ht] at h
    exact absurd h (by simp)
  | cons c cs ih =>
    rw [List.cons_append] at h
    simp only [reSearch, Bool.or_eq_true] at h ⊢
    rcases h with h | h
    · exact Or.inl (matchHere_strip ht (by rwa [List.cons_append]))
    · exact Or.inr (ih h)

theorem rdropL_append (p : Char → Bool) (l : List Char) :
    rdropL p l ++ (l.reverse.takeWhile p).reverse = l := by
  rw [rdropL, ← List.reverse_append, List.takeWhile_append_dropWhile, List.reverse_reverse]

theorem reSearch_rdropL {l : List Char} (h : reSearch l = true) :
    reSearch (rdropL isPySpace l) = true := by
  have ht : ∀ c ∈ (l.reverse.takeWhile isPySpace).reverse, isPySpace c = true := by
    intro c hc
    exact List.mem_takeWhile_imp (List.mem_reverse.mp hc)
  apply reSearch_strip ht
  rw [rdropL_append isPySpace l]
  exact h

/-- `rstrip` on a matching line leaves a matching line: the produced block's
first line still matches the pattern. -/
theorem fatal_pattern_search_rstrip {s : String} (h : fatal_pattern_search s = true) :
    fatal_pattern_search (py_rstrip s) = true :=
  reSearch_rdropL h

/-! ### Window bounds for the direct strategy -/

theorem crash_window_length_le (lines : List String) (i : Nat) :
    (crash_window lines i).length ≤ 11 := by
  simp only [crash_window, List.length_map, List.length_take]
  exact Nat.min_le_left _ _

theorem crash_window_length_pos (lines : List String) (i : Nat) (h : i < lines.length) :
    1 ≤ (crash_window lines i).length := by
  simp only [crash_window, List.length_map, List.length_take, List.length_drop]
  omega

theorem crash_window_head (lines : List String) (i : Nat) (h : i < lines.length) :
    (crash_window lines i).headD ("") = py_rstrip (lines.getD i ("")) := by
  rw [crash_window, List.drop_eq_getElem_cons h, List.take_succ_cons, List.map_cons,
    List.headD_cons]
  congr 1
  rw [List.getD_eq_getElem?_getD, List.getElem?_eq_getElem h]
  rfl

/-! ### The orchestrating loop -/

theorem analyze_loop_pre (s : FileStep) (rest : List FileStep) (acc : List (String × List String))
    (tc fwc : Nat) (hp : s.preCancelled = true) :
    analyze_loop (s :: rest) acc tc fwc = Except.error ScanErr.cancelled := by
  rw [analyze_loop, if_pos hp]

theorem analyze_loop_cons_ok (s : FileStep) (rest : List FileStep)
    (acc : List (String × List String)) (tc fwc : Nat) (blocks : List String)
    (hp : s.preCancelled = false) (hl : s.locate = Except.ok blocks) :
    analyze_loop (s :: rest) acc tc fwc =
      if blocks.isEmpty then analyze_loop rest acc tc fwc
      else analyze_loop rest (acc ++ [(s.path, blocks)]) (tc + blocks.length) (fwc + 1) := by
  rw [analyze_loop, if_neg (by simp [hp]), hl]

theorem analyze_loop_cons_cancel (s : FileStep) (rest : List FileStep)
    (acc : List (String × List String)) (tc fwc : Nat)
    (hl : s.locate = Except.error ScanErr.cancelled) :
    analyze_loop (s :: rest) acc tc fwc = Except.error ScanErr.cancelled := by
  by_cases hp : s.preCancelled
  · rw [analyze_loop, if_pos hp]
  · rw [analyze_loop, if_neg hp, hl]

theorem analyze_loop_cons_read (s : FileStep) (rest : List FileStep)
    (acc : List (String × List String)) (tc fwc : Nat) (hp : s.preCancelled = false)
    (hl : s.locate = Except.error ScanErr.readError) :
    analyze_loop (s :: rest) acc tc fwc = analyze_loop rest acc tc fwc := by
  rw [analyze_loop, if_neg (by simp [hp]), hl]

theorem ok_entries_cons_ok (s : FileStep) (rest : List FileStep) (blocks : List String)
    (hl : s.locate = Except.ok blocks) :
    ok_entries (s :: rest) =
      if blocks.isEmpty then ok_entries rest else (s.path, blocks) :: ok_entries rest := by
  rw [ok_entries, hl]

theorem ok_entries_cons_err (s : FileStep) (rest : List FileStep) (e : ScanErr)
    (hl : s.locate = Except.error e) : ok_entries (s :: rest) = ok_entries rest := by
  rw [ok_entries, hl]

theorem analyze_loop_ok : ∀ (steps : List FileStep) (acc : List (String × List String))
    (tc fwc : Nat) (acc2 : List (String × List String)) (tc2 fwc2 : Nat),
    analyze_loop steps acc tc fwc = Except.ok (acc2, tc2, fwc2) →
    acc2 = acc ++ ok_entries steps ∧
      tc2 = tc + ((ok_entries steps).map (fun e => e.2.length)).sum ∧
      fwc2 = fwc + (ok_entries steps).length := by
  intro steps
  induction steps with
  | nil =>
    intro acc tc fwc acc2 tc2 fwc2 h
    simp only [analyze_loop, Except.ok.injEq, Prod.mk.injEq] at h
    simp [ok_entries, h.1, h.2.1, h.2.2]
  | cons s rest ih =>
    intro acc tc fwc acc2 tc2 fwc2 h
    by_cases hp : s.preCancelled
    · rw [analyze_loop_pre s rest acc tc fwc hp] at h
      exact absurd h (by simp)
    · have hp' : s.preCancelled = false := by simpa using hp
      cases hl : s.locate with
      | ok blocks =>
        rw [analyze_loop_cons_ok s rest acc tc fwc blocks hp' hl] at h
        rw [ok_entries_cons_ok s rest blocks hl]
        by_cases hb : blocks.isEmpty
        · rw [if_pos hb] at h
          rw [if_pos hb]
          exact ih acc tc fwc acc2 tc2 fwc2 h
        · rw [if_neg hb] at h
          rw [if_neg hb]
          obtain ⟨e1, e2, e3⟩ := ih (acc ++ [(s.path, blocks)]) (tc + blocks.length)
            (fwc + 1) acc2 tc2 fwc2 h
          refine ⟨?_, ?_, ?_⟩
          · rw [e1, List.append_assoc]
            rfl
          · rw [e2]
            simp only [List.map_cons, List.sum_cons]
            omega
          · rw [e3, List.length_cons]
            omega
      | error e =>
        cases e with
        | cancelled =>
          rw [analyze_loop_cons_cancel s rest acc tc fwc hl] at h
          exact absurd h (by simp)
        | readError =>
          rw [analyze_loop_cons_read s rest acc tc fwc hp' hl] at h
          rw [ok_entries_cons_err s rest ScanErr.readError hl]
          exact ih acc tc fwc acc2 tc2 fwc2 h

theorem ok_entries_nonempty : ∀ steps : List FileStep, ∀ e ∈ ok_entries steps, e.2 ≠ [] := by
  intro steps
  induction steps with
  | nil => intro e he; simp [ok_entries] at he
  | cons s rest ih =>
    intro e he
    cases hl : s.locate with
    | ok blocks =>
      rw [ok_entries_cons_ok s rest blocks hl] at he
      by_cases hb : blocks.isEmpty
      · rw [if_pos hb] at he
        exact ih e he
      · rw [if_neg hb] at he
        rcases List.mem_cons.mp he with rfl | he2
        · simpa [List.isEmpty_iff] using hb
        · exact ih e he2
    | error err =>
      rw [ok_entries_cons_err s rest err hl] at he
      exact ih e he

theorem analyze_loop_cancelled : ∀ steps : List FileStep,
    (∃ s ∈ steps, s.preCancelled = true ∨ s.locate = Except.error ScanErr.cancelled) →
    ∀ acc tc fwc, analyze_loop steps acc tc fwc = Except.error ScanErr.cancelled := by
  intro steps
  induction steps with
  | nil =>
    rintro ⟨s, hs, _⟩
    simp at hs
  | cons s rest ih =>
    rintro ⟨w, hw, hcase⟩ acc tc fwc
    rcases List.mem_cons.mp hw with rfl | hw2
    · rcases hcase with hp | hl
      · exact analyze_loop_pre w rest acc tc fwc hp
      · exact analyze_loop_cons_cancel w rest acc tc fwc hl
    · by_cases hp : s.preCancelled
      · exact analyze_loop_pre s rest acc tc fwc hp
      · have hp' : s.preCancelled = false := by simpa using hp
        cases hl : s.locate with
        | ok blocks =>
          rw [analyze_loop_cons_ok s rest acc tc fwc blocks hp' hl]
          by_cases hb : blocks.isEmpty
          · rw [if_pos hb]
            exact ih ⟨w, hw2, hcase⟩ acc tc fwc
          · rw [if_neg hb]
            exact ih ⟨w, hw2, hcase⟩ _ _ _
        | error e =>
          cases e with
          | cancelled => exact analyze_loop_cons_cancel s rest acc tc fwc hl
          | readError =>
            rw [analyze_loop_cons_read s rest acc tc fwc hp' hl]
            exact ih ⟨w, hw2, hcase⟩ acc tc fwc

theorem analyze_loop_skip (s : FileStep) (h1 : s.preCancelled = false)
    (h2 : s.locate = Except.error ScanErr.readError) :
    ∀ (s1 : List FileStep) (s2 : List FileStep) acc tc fwc,
    analyze_loop (s1 ++ s :: s2) acc tc fwc = analyze_loop (s1 ++ s2) acc tc fwc := by
  intro s1
  induction s1 with
  | nil =>
    intro s2 acc tc fwc
    rw [List.nil_append, List.nil_append, analyze_loop_cons_read s s2 acc tc fwc h1 h2]
  | cons x s1 ih =>
    intro s2 acc tc fwc
    rw [List.cons_append, List.cons_append]
    by_cases hp : x.preCancelled
    · rw [analyze_loop_pre x _ acc tc fwc hp, analyze_loop_pre x _ acc tc fwc hp]
    · have hp' : x.preCancelled = false := by simpa using hp
      cases hl : x.locate with
      | ok blocks =>
        rw [analyze_loop_cons_ok x _ acc tc fwc blocks hp' hl,
          analyze_loop_cons_ok x _ acc tc fwc blocks hp' hl]
        by_cases hb : blocks.isEmpty
        · rw [if_pos hb, if_pos hb, ih]
        · rw [if_neg hb, if_neg hb, ih]
      | error e =>
        cases e with
        | cancelled =>
          rw [analyze_loop_cons_cancel x _ acc tc fwc hl,
            analyze_loop_cons_cancel x _ acc tc fwc hl]
        | readError =>
          rw [analyze_loop_cons_read x _ acc tc fwc hp' hl,
            analyze_loop_cons_read x _ acc tc fwc hp' hl, ih]

/-- What a completed (non-aborted) scan returns: the per-file entries are
exactly the files whose locate succeeded with a nonempty block list, and the
counters are computed from those entries. -/
theorem analyze_ok_spec (steps : List FileStep) (r : Report)
    (h : analyze steps = Except.ok r) :
    r.allCrashes = ok_entries steps ∧
      r.totalCrashes = ((ok_entries steps).map (fun e => e.2.length)).sum ∧
      r.filesWithCrashes = (ok_entries steps).length ∧
      r.totalFiles = steps.length := by
  unfold analyze at h
  cases hl : analyze_loop steps [] 0 0 with
  | error e =>
    rw [hl] at h
    exact absurd h (by simp [Except.map])
  | ok v =>
    rw [hl] at h
    simp only [Except.map, Except.ok.injEq] at h
    obtain ⟨e1, e2, e3⟩ := analyze_loop_ok steps [] 0 0 v.1 v.2.1 v.2.2 hl
    rw [← h]
    exact ⟨by simpa using e1, by simpa using e2, by simpa using e3, rfl⟩

/-! ### The claims -/

/-- Claim C2: in every file in which two lines matching the pattern occur 2
lines apart and these are the only matches, the direct strategy yields two
distinct incident blocks, one per match, each of at most 11 lines (the second
truncated at end of file if applicable), never a single merged block:
overlapping matches each produce their own block and are not deduplicated. -/
theorem C2_two_matches_two_blocks (lines : List String) (i : Nat)
    (h : match_indices lines = [i, i + 2]) :
    manual_search_blocks lines = [crash_block lines i, crash_block lines (i + 2)] ∧
      (manual_search_blocks lines).length = 2 ∧
      (crash_window lines i).length ≤ 11 ∧
      (crash_window lines (i + 2)).length ≤ 11 := by
  have hc := manual_search_blocks_eq lines
  rw [h] at hc
  simp only [List.map_cons, List.map_nil] at hc
  exact ⟨hc, by rw [hc]; rfl, crash_window_length_le lines i,
    crash_window_length_le lines (i + 2)⟩

/-- Witness for C2 at a concrete file with matches at indices 0 and 2. -/
theorem C2_two_matches_two_blocks_witness :
    match_indices c2_file = [0, 0 + 2] ∧
      manual_search_blocks c2_file =
        [crash_block c2_file 0, crash_block c2_file (0 + 2)] ∧
      (manual_search_blocks c2_file).length = 2 := by
  have h : match_indices c2_file = [0, 0 + 2] := by decide
  have hm := C2_two_matches_two_blocks c2_file 0 h
  exact ⟨h, hm.1, hm.2.1⟩

/-- Claim C6: the block grouper, on any flat ordered line stream containing
separator tokens, emits one block for each maximal run of non-separator
lines: a separator closes the current block only when at least one line has
accumulated (an isolated separator contributes no block), and trailing
accumulated lines at end of stream form a final block without a closing
separator.  `sep_segments` lists the segments between separators, so its
nonempty segments are exactly the maximal runs of non-separator lines. -/
theorem C6_grouper_maximal_runs (ls : List String) :
    group_blocks [] ls =
      ((sep_segments ls).filter (fun r => !r.isEmpty)).map
        (fun r => String.intercalate ("\n") r) := by
  rw [group_blocks_eq_segments ls []]
  cases hseg : sep_segments ls with
  | nil => exact absurd hseg (sep_segments_ne_nil ls)
  | cons r rs => simp [cons_into]

/-- Claim C7: when the accelerated strategy is invoked (ripgrep available)
and fails operationally, the locator retries the same file with the direct
strategy and returns exactly that result; the backend failure is never
surfaced to the caller as a failure of the file's scan. -/
theorem C7_ripgrep_failure_falls_back (cancelled : Bool) (input : FileInput) :
    find_crashes_in_file true (Except.error ()) cancelled input =
      manual_search cancelled input := rfl

/-- Claim C10: the direct strategy's pattern is the case-insensitive regular
expression FATAL\s+EXCEPTION: FATAL and EXCEPTION must be separated by at
least one whitespace character, so a line containing FATALEXCEPTION with no
intervening whitespace produces no block, while case variants such as lower
case fatal exception do match. -/
theorem C10_pattern_semantics :
    fatal_pattern_search ("FATAL EXCEPTION: main") = true ∧
      fatal_pattern_search ("fatal exception: main") = true ∧
      fatal_pattern_search ("FATALEXCEPTION: main") = false ∧
      manual_search_blocks [("FATALEXCEPTION: main\n")] = [] ∧
      manual_search_blocks [("fatal exception: main\n")] = [("fatal exception: main")] ∧
      fatal_pattern_search ("x FATAL \t EXCEPTION y") = true := by
  exact ⟨by decide, by decide, by decide, by decide, by decide, by decide⟩

/-- Counterexample to claim C5 as stated: on a line carrying a trailing
space before its newline, the direct strategy emits the line with all
trailing whitespace removed (Python str.rstrip), not with only the
line-terminator characters trimmed, so the produced block differs from the
block the claim describes. -/
theorem C5_counterexample :
    manual_search_blocks [c5_line] = [py_rstrip c5_line] ∧
      manual_search_blocks [c5_line] ≠ [strip_term c5_line] ∧
      py_rstrip c5_line = ("FATAL EXCEPTION: main") ∧
      strip_term c5_line = ("FATAL EXCEPTION: main ") := by
  exact ⟨by decide, by decide, by decide, by decide⟩

/-- Claim C5 (amended): in the direct strategy, for every file and every
line index whose line matches the pattern, exactly one incident block is
produced per matching index (the block list is the map of the block
constructor over the matching indices), consisting of lines i through
min (i + 10) (last index) inclusive with trailing WHITESPACE (str.rstrip, not
only line terminators) trimmed from each line; every block has between 1 and
11 lines and its first line still matches the pattern. -/
theorem C5_amended_one_block_per_match (lines : List String) (i : Nat)
    (h : i < lines.length) (hm : fatal_pattern_search (lines.getD i ("")) = true) :
    manual_search_blocks lines = (match_indices lines).map (crash_block lines) ∧
      i ∈ match_indices lines ∧
      crash_block lines i =
        String.intercalate ("\n") (((lines.drop i).take 11).map py_rstrip) ∧
      1 ≤ (crash_window lines i).length ∧
      (crash_window lines i).length ≤ 11 ∧
      fatal_pattern_search ((crash_window lines i).headD ("")) = true := by
  refine ⟨manual_search_blocks_eq lines, ?_, rfl, crash_window_length_pos lines i h,
    crash_window_length_le lines i, ?_⟩
  · unfold match_indices
    rw [List.mem_filter]
    exact ⟨List.mem_range.mpr h, hm⟩
  · rw [crash_window_head lines i h]
    exact fatal_pattern_search_rstrip hm

/-- Witness for the amended C5 at a concrete file and index. -/
theorem C5_amended_witness :
    0 < c1_clean_file.length ∧
      fatal_pattern_search (c1_clean_file.getD 0 ("")) = true ∧
      0 ∈ match_indices c1_clean_file ∧
      fatal_pattern_search ((crash_window c1_clean_file 0).headD ("")) = true := by
  have h1 : 0 < c1_clean_file.length := by decide
  have h2 : fatal_pattern_search (c1_clean_file.getD 0 ("")) = true := by decide
  have hmain := C5_amended_one_block_per_match c1_clean_file 0 h1 h2
  exact ⟨h1, h2, hmain.2.1, hmain.2.2.2.2.2⟩

/-- Counterexample to claim C1 as stated: `c1_file` has exactly one match
(index 0) with ten trailing lines, yet the accelerated strategy produces two
blocks where the direct strategy produces one, because a context line equal
to the separator token splits the accelerated block, and the matching line's
trailing space survives in the accelerated block but is rstripped by the
direct strategy — so neither the block boundaries nor the block bytes
agree. -/
theorem C1_counterexample :
    match_indices c1_file = [0] ∧
      c1_file.length = 11 ∧
      (accelerated_blocks c1_file).length = 2 ∧
      (manual_search_blocks c1_file).length = 1 ∧
      accelerated_blocks c1_file ≠ manual_search_blocks c1_file := by
  refine ⟨by decide, by decide, by decide, by decide, ?_⟩
  intro hcontra
  have h1 : (accelerated_blocks c1_file).length = 2 := by decide
  rw [hcontra] at h1
  have h2 : (manual_search_blocks c1_file).length = 1 := by decide
  rw [h2] at h1
  exact absurd h1 (by decide)

/-- Claim C1 (amended): for every input file none of whose lines carries
trailing whitespace beyond its line terminator and none of whose lines
equals the separator token once its terminator is stripped, the accelerated
(ripgrep) strategy and the direct strategy produce the identical sequence of
incident blocks — same boundaries and byte-identical content; in particular
this holds for every such file containing exactly one match with at least 10
trailing lines. -/
theorem C1_strategies_agree (lines : List String)
    (h : ∀ l ∈ lines, py_rstrip l = strip_term l ∧ ¬ strip_term l = "--") :
    accelerated_blocks lines = manual_search_blocks lines := by
  unfold accelerated_blocks ripgrep_search
  rw [group_blocks_sep_concat ((match_indices lines).map
      (fun i => ((lines.drop i).take 11).map strip_term)) ?cond]
  case cond =>
    intro g hg
    rw [List.mem_map] at hg
    obtain ⟨i, hi, rfl⟩ := hg
    have hil : i < lines.length := by
      have hmem := List.mem_filter.mp hi
      exact List.mem_range.mp hmem.1
    constructor
    · simp only [ne_eq, List.map_eq_nil_iff, List.take_eq_nil_iff]
      rintro (h11 | hdrop)
      · exact absurd h11 (by decide)
      · rw [List.drop_eq_nil_iff] at hdrop
        omega
    · intro x hx
      rw [List.mem_map] at hx
      obtain ⟨l, hl, rfl⟩ := hx
      exact (h l (List.mem_of_mem_drop (List.mem_of_mem_take hl))).2
  rw [manual_search_blocks_eq, List.map_map]
  apply List.map_congr_left
  intro i _
  simp only [Function.comp, crash_block, crash_window]
  congr 1
  apply List.map_congr_left
  intro l hl
  exact ((h l (List.mem_of_mem_drop (List.mem_of_mem_take hl))).1).symm

/-- Witness for the amended C1 at a concrete clean file. -/
theorem C1_strategies_agree_witness :
    (∀ l ∈ c1_clean_file, py_rstrip l = strip_term l ∧ ¬ strip_term l = "--") ∧
      accelerated_blocks c1_clean_file = manual_search_blocks c1_clean_file := by
  have h : ∀ l ∈ c1_clean_file, py_rstrip l = strip_term l ∧ ¬ strip_term l = "--" := by
    decide
  exact ⟨h, C1_strategies_agree c1_clean_file h⟩

/-- Counterexample to claim C3 as stated: a scanned file with zero matches
(`empty_step`, whose locate succeeds with an empty block list) yields a
report that counts the file in `totalFiles` but contains NO per-file entry
for it — `allCrashes` is empty, with no entry carrying an empty block
sequence as the claim requires. -/
theorem C3_counterexample :
    empty_step.locate = Except.ok [] ∧
      analyze [empty_step] = Except.ok (Report.mk [] 0 0 1) ∧
      (Report.mk [] 0 0 1).allCrashes = [] := by
  exact ⟨rfl, rfl, rfl⟩

/-- Claim C3 (amended): for every completed scan the per-file entries are
exactly the files whose search returned at least one block; a file with zero
matches (and likewise a skipped file) contributes NO per-file entry — every
entry present has a nonempty block sequence — and only the aggregate
`totalFiles` records how many files the request named, so the report does
not per-file distinguish a scanned file without findings from a file that
was not scanned. -/
theorem C3_amended_no_entry_for_empty (steps : List FileStep) (r : Report)
    (h : analyze steps = Except.ok r) :
    r.allCrashes = ok_entries steps ∧
      (∀ e ∈ r.allCrashes, e.2 ≠ []) ∧
      r.totalFiles = steps.length := by
  obtain ⟨h1, _, _, h4⟩ := analyze_ok_spec steps r h
  refine ⟨h1, ?_, h4⟩
  rw [h1]
  exact ok_entries_nonempty steps

/-- Witness for the amended C3 at a concrete two-file scan with one
zero-match file. -/
theorem C3_amended_witness :
    analyze c3_steps = Except.ok c3_report ∧
      c3_report.allCrashes = ok_entries c3_steps ∧
      (∀ e ∈ c3_report.allCrashes, e.2 ≠ []) ∧
      c3_report.totalFiles = c3_steps.length := by
  have h : analyze c3_steps = Except.ok c3_report := rfl
  obtain ⟨h1, h2, h3⟩ := C3_amended_no_entry_for_empty c3_steps c3_report h
  exact ⟨h, h1, h2, h3⟩

/-- Claim C4: whenever the cancellation signal is observed — at the
pre-file check, or as a cancellation error raised from inside the per-file
search — the entire scan aborts with the cancellation outcome, which is
distinguishable from the read-error outcome, and no report (in particular no
partial report covering previously completed files) is returned. -/
theorem C4_cancellation_aborts (steps : List FileStep)
    (h : ∃ s ∈ steps, s.preCancelled = true ∨
        s.locate = Except.error ScanErr.cancelled) :
    analyze steps = Except.error ScanErr.cancelled ∧
      (∀ r : Report, ¬ analyze steps = Except.ok r) ∧
      ScanErr.cancelled ≠ ScanErr.readError := by
  have hmain : analyze steps = Except.error ScanErr.cancelled := by
    unfold analyze
    rw [analyze_loop_cancelled steps h [] 0 0]
    rfl
  refine ⟨hmain, ?_, by decide⟩
  intro r hr
  rw [hmain] at hr
  exact absurd hr (by simp)

/-- Witness for C4: a scan whose first file completes and whose second file
raises the cancellation error from inside the search aborts without any
report. -/
theorem C4_cancellation_aborts_witness :
    (∃ s ∈ [ok_step, locator_cancel_step], s.preCancelled = true ∨
        s.locate = Except.error ScanErr.cancelled) ∧
      analyze [ok_step, locator_cancel_step] = Except.error ScanErr.cancelled := by
  have h : ∃ s ∈ [ok_step, locator_cancel_step], s.preCancelled = true ∨
      s.locate = Except.error ScanErr.cancelled :=
    ⟨locator_cancel_step, List.mem_cons_of_mem _ (List.mem_cons_self _ _), Or.inr rfl⟩
  exact ⟨h, (C4_cancellation_aborts _ h).1⟩

/-- Claim C8: a file whose read fails with a non-cancellation error is
skipped and the scan continues: the request behaves exactly as if the bad
file were absent, except that `totalFiles` still counts it — in particular
the other files' entries and counters are unchanged and a report is still
returned whenever the remaining files complete. -/
theorem C8_bad_file_skipped (s1 s2 : List FileStep) (s : FileStep)
    (h1 : s.preCancelled = false) (h2 : s.locate = Except.error ScanErr.readError) :
    analyze (s1 ++ s :: s2) =
      (analyze (s1 ++ s2)).map
        (fun r => Report.mk r.allCrashes r.totalCrashes r.filesWithCrashes
          (r.totalFiles + 1)) := by
  unfold analyze
  rw [analyze_loop_skip s h1 h2 s1 s2 [] 0 0]
  cases analyze_loop (s1 ++ s2) [] 0 0 with
  | error e => rfl
  | ok v =>
    simp only [Except.map]
    have hlen : (s1 ++ s :: s2).length = (s1 ++ s2).length + 1 := by
      simp only [List.length_append, List.length_cons]
      omega
    rw [hlen]

/-- Witness for C8: a missing file followed by a healthy file still yields
the healthy file's report. -/
theorem C8_bad_file_skipped_witness :
    bad_step.preCancelled = false ∧
      bad_step.locate = Except.error ScanErr.readError ∧
      analyze ([] ++ bad_step :: [ok_step]) =
        (analyze ([] ++ [ok_step])).map
          (fun r => Report.mk r.allCrashes r.totalCrashes r.filesWithCrashes
            (r.totalFiles + 1)) :=
  ⟨rfl, rfl, C8_bad_file_skipped [] [ok_step] bad_step rfl rfl⟩

/-- Claim C9: for every completed scan, the aggregate total block count
equals the sum of the block-sequence lengths over the per-file results, and
the files-with-blocks count equals the number of per-file results with a
nonempty block sequence (here every per-file entry is nonempty, so it also
equals the number of entries): the aggregates cannot drift from the
underlying per-file results. -/
theorem C9_aggregates_consistent (steps : List FileStep) (r : Report)
    (h : analyze steps = Except.ok r) :
    r.totalCrashes = (r.allCrashes.map (fun e => e.2.length)).sum ∧
      r.filesWithCrashes = (r.allCrashes.filter (fun e => !e.2.isEmpty)).length ∧
      r.filesWithCrashes = r.allCrashes.length := by
  obtain ⟨h1, h2, h3, _⟩ := analyze_ok_spec steps r h
  have hfil : r.allCrashes.filter (fun e => !e.2.isEmpty) = r.allCrashes := by
    rw [List.filter_eq_self]
    intro e he
    have hne : e.2 ≠ [] := by
      rw [h1] at he
      exact ok_entries_nonempty steps e he
    simpa [List.isEmpty_iff] using hne
  rw [hfil, h1]
  exact ⟨by rw [h2], h3, h3⟩

/-- Witness for C9 at a concrete three-file scan (one crash file, one
zero-match file, one failed file). -/
theorem C9_aggregates_consistent_witness :
    analyze [ok_step, empty_step, bad_step] =
        Except.ok (Report.mk [(("app.log"), [("FATAL EXCEPTION: main\nat f")])] 1 1 3) ∧
      (Report.mk [(("app.log"), [("FATAL EXCEPTION: main\nat f")])] 1 1 3).totalCrashes =
        ((Report.mk [(("app.log"), [("FATAL EXCEPTION: main\nat f")])] 1 1 3).allCrashes.map
          (fun e => e.2.length)).sum := by
  have h : analyze [ok_step, empty_step, bad_step] =
      Except.ok (Report.mk [(("app.log"), [("FATAL EXCEPTION: main\nat f")])] 1 1 3) := rfl
  exact ⟨h, (C9_aggregates_consistent _ _ h).1⟩

end LensInsights
